import Mathlib

/-!
Verification development for the realtime musical-event scheduler
(`src/midi_generator/transport.py`, `src/midi_generator/sequencer.py`,
`src/midi_generator/structures.py`, `src/composer/instrument.py`).

The Python code is shallowly embedded:
* Python floats are modelled as exact rationals `ℚ`;
* Python `int(x)` (truncation toward zero) is `pyInt`;
* the `heapq` module (`heappush` / `heappop` with `_siftdown` / `_siftup`)
  is reproduced verbatim over `List`, with an explicit fuel argument that
  is always large enough for the loops of the original;
* callbacks (Python closures) are defunctionalised: the sequencer's
  closures become the `MidiAction` inductive, and transport-level proofs
  are polymorphic in the callback type;
* the monotonic clock `time_get_time()` becomes an explicit `now : ℤ`
  argument (Python reads the clock once per operation modelled here);
* fallible constructors (`__post_init__` raising `ValueError`, methods
  raising `KeyError`) return `Option` / `Except`.
-/

/-- Python `int(q)` for a real (here: rational) `q`: truncation toward zero. -/
def pyInt (q : ℚ) : ℤ := if 0 ≤ q then ⌊q⌋ else ⌈q⌉

/-! ### The `heapq` module

Faithful port of CPython's `heapq.heappush` / `heapq.heappop`
(`_siftdown` / `_siftup`).  The mutable list becomes a `List α`, indexing
uses `List.getD` (all accesses of the original are in range, so the
default is irrelevant), and each `while` loop carries a fuel argument;
the fuel passed at every call site bounds the iteration count of the
original loop, so the port computes exactly what CPython computes. -/

/-- CPython `heapq._siftdown(heap, startpos, pos)` with `newitem = heap[pos]`:
walk `pos` up toward `startpos`, moving parents down, then place `newitem`. -/
def siftdown (lt : α → α → Bool) : ℕ → List α → ℕ → ℕ → α → α → List α
  | 0, heap, _, pos, newitem, _ => heap.set pos newitem
  | fuel + 1, heap, startpos, pos, newitem, d =>
    if startpos < pos then
      if lt newitem (heap.getD ((pos - 1) / 2) d) then
        siftdown lt fuel (heap.set pos (heap.getD ((pos - 1) / 2) d)) startpos ((pos - 1) / 2) newitem d
      else heap.set pos newitem
    else heap.set pos newitem

/-- CPython `heapq._siftup(heap, pos)` (plus its trailing `_siftdown` call):
walk a hole at `pos` down to a leaf, moving the smaller child up, then
sift `newitem` back up from the leaf position. -/
def siftup (lt : α → α → Bool) : ℕ → List α → ℕ → ℕ → ℕ → α → α → List α
  | 0, heap, _, startpos, pos, newitem, d =>
    siftdown lt (pos + 1) (heap.set pos newitem) startpos pos newitem d
  | fuel + 1, heap, endpos, startpos, pos, newitem, d =>
    if 2 * pos + 1 < endpos then
      if 2 * pos + 2 < endpos && !(lt (heap.getD (2 * pos + 1) d) (heap.getD (2 * pos + 2) d)) then
        siftup lt fuel (heap.set pos (heap.getD (2 * pos + 2) d)) endpos startpos (2 * pos + 2) newitem d
      else
        siftup lt fuel (heap.set pos (heap.getD (2 * pos + 1) d)) endpos startpos (2 * pos + 1) newitem d
    else
      siftdown lt (pos + 1) (heap.set pos newitem) startpos pos newitem d

/-- CPython `heapq.heappush(heap, item)`: append, then sift down from the
last position.  `pos` strictly decreases in `_siftdown`, so fuel
`heap.length + 1` can never be exhausted. -/
def heappush (lt : α → α → Bool) (heap : List α) (item : α) : List α :=
  siftdown lt (heap.length + 1) (heap ++ [item]) 0 heap.length item item

/-- CPython `heapq.heappop(heap)`: pop the last element, move it to the
root, sift up.  Returns `none` on the empty heap (CPython raises).  The
hole in `_siftup` descends one level per iteration, so fuel
`rest.length` suffices. -/
def heappop (lt : α → α → Bool) (heap : List α) : Option (α × List α) :=
  match heap.getLast? with
  | none => none
  | some lastelt =>
    match heap.dropLast with
    | [] => some (lastelt, [])
    | x :: rest =>
      some (x, siftup lt (rest.length + 1) ((x :: rest).set 0 lastelt) (rest.length + 1) 0 0 lastelt lastelt)

/-! ### Transport (`src/midi_generator/transport.py`)

`TimedEvent` and `PreciseTransport` mirror the Python classes.  The
callback type is a parameter `α`; the sequencer instantiates it with the
defunctionalised `MidiAction` below.  The mutable attributes of
`PreciseTransport` that the embedded operations touch become structure
fields (`_ns_per_beat`, `_is_playing`, `_current_beat`, `_start_time_ns`,
`_next_event_id`, `_events` lose their underscore prefix;
`_current_beat` becomes `current_beat_stored` because `current_beat` is
the name of the property reading it). -/

/-- `TimedEvent` dataclass: `timestamp_ns`, `callback`, `event_id`
(default `None`), `concurrent` (default `True`). -/
structure TimedEvent (α : Type) where
  timestamp_ns : ℤ
  callback : α
  event_id : Option ℤ
  concurrent : Bool
deriving DecidableEq, Repr

/-- `TimedEvent.__lt__`: comparison by `timestamp_ns` only. -/
def eventLT (e f : TimedEvent α) : Bool := decide (e.timestamp_ns < f.timestamp_ns)

/-- State of a `PreciseTransport`. -/
structure PreciseTransport (α : Type) where
  bpm : ℚ
  ns_per_beat : ℚ
  is_playing : Bool
  current_beat_stored : ℚ
  start_time_ns : ℤ
  next_event_id : ℤ
  events : List (TimedEvent α)
deriving DecidableEq, Repr

/-- `PreciseTransport.NANOSECONDS_PER_MINUTE`. -/
def NANOSECONDS_PER_MINUTE : ℚ := 60000000000

namespace PreciseTransport

/-- `current_beat` property: elapsed nanoseconds over `ns_per_beat` while
playing, else the stored beat. -/
def current_beat (tr : PreciseTransport α) (now : ℤ) : ℚ :=
  if tr.is_playing then ((now - tr.start_time_ns : ℤ) : ℚ) / tr.ns_per_beat
  else tr.current_beat_stored

/-- The fire timestamp computed by `schedule_event`:
`timestamp_ns = self._start_time_ns + int(beat * self._ns_per_beat)`. -/
def event_timestamp (tr : PreciseTransport α) (beat : ℚ) : ℤ :=
  tr.start_time_ns + pyInt (beat * tr.ns_per_beat)

/-- `schedule_event(beat, callback, concurrent)`.  Returns the new state
and the returned event id (`-1` when not playing).  A past-due event
(`timestamp_ns <= now`) runs its callback inline in the caller and is
not enqueued; otherwise the event is `heappush`ed. -/
def schedule_event (tr : PreciseTransport α) (now : ℤ) (beat : ℚ) (callback : α)
    (concurrent : Bool) : PreciseTransport α × ℤ :=
  if tr.is_playing = false then (tr, -1)
  else
    if event_timestamp tr beat ≤ now then
      ({ tr with next_event_id := tr.next_event_id + 1 }, tr.next_event_id)
    else
      ({ tr with
          next_event_id := tr.next_event_id + 1,
          events := heappush eventLT tr.events
            ⟨event_timestamp tr beat, callback, some tr.next_event_id, concurrent⟩ },
        tr.next_event_id)

/-- `schedule_critical_event(beat, callback)`:
`schedule_event(beat, callback, concurrent=False)`. -/
def schedule_critical_event (tr : PreciseTransport α) (now : ℤ) (beat : ℚ)
    (callback : α) : PreciseTransport α × ℤ :=
  schedule_event tr now beat callback false

/-- The replacement event built inside `set_tempo` for a pending future
event: its beat position under the old tempo is converted back to a
timestamp under the new tempo.  The source constructs
`TimedEvent(timestamp_ns=..., callback=..., event_id=...)`, omitting
`concurrent`, so the dataclass default `True` applies. -/
def reschedule_for_tempo (start_time_ns : ℤ) (old_ns_per_beat new_ns_per_beat : ℚ)
    (e : TimedEvent α) : TimedEvent α :=
  { timestamp_ns := start_time_ns +
      pyInt (((e.timestamp_ns - start_time_ns : ℤ) : ℚ) / old_ns_per_beat * new_ns_per_beat),
    callback := e.callback,
    event_id := e.event_id,
    concurrent := true }

/-- `set_tempo(bpm)`: update `bpm` and `ns_per_beat`; while playing,
rebuild the queue, pushing a rescheduled copy of every event with
`timestamp_ns > now_ns` and dropping the rest. -/
def set_tempo (tr : PreciseTransport α) (now : ℤ) (bpm : ℚ) : PreciseTransport α :=
  if tr.is_playing then
    { tr with
        bpm := bpm,
        ns_per_beat := NANOSECONDS_PER_MINUTE / bpm,
        events := tr.events.foldl
          (fun h e =>
            if now < e.timestamp_ns then
              heappush eventLT h
                (reschedule_for_tempo tr.start_time_ns tr.ns_per_beat
                  (NANOSECONDS_PER_MINUTE / bpm) e)
            else h) [] }
  else { tr with bpm := bpm, ns_per_beat := NANOSECONDS_PER_MINUTE / bpm }

/-- `_collect_ready_events(now_ns)`: pop the heap while the root is due.
Fuel `heap.length` bounds the loop (each `heappop` shrinks the heap). -/
def collect_ready_events (now : ℤ) :
    ℕ → List (TimedEvent α) → List (TimedEvent α) × List (TimedEvent α)
  | 0, heap => ([], heap)
  | fuel + 1, heap =>
    match heap with
    | [] => ([], [])
    | e :: _ =>
      if e.timestamp_ns ≤ now then
        match heappop eventLT heap with
        | some (top, rest) =>
          (top :: (collect_ready_events now fuel rest).1,
            (collect_ready_events now fuel rest).2)
        | none => ([], heap)
      else ([], heap)

end PreciseTransport

/-! ### Data structures (`src/midi_generator/structures.py`)

`Note.__post_init__` and `Sequence.__post_init__` raise `ValueError`;
the embedded constructors return `Option`. -/

/-- `Note` dataclass, field order as in the source:
`pitch, velocity, duration, start_beat, channel`. -/
structure Note where
  pitch : ℤ
  velocity : ℤ
  duration : ℚ
  start_beat : ℚ
  channel : ℤ
deriving DecidableEq, Repr

/-- The checks of `Note.__post_init__`. -/
def Note.Valid (n : Note) : Prop :=
  (0 ≤ n.pitch ∧ n.pitch ≤ 127) ∧ (0 ≤ n.velocity ∧ n.velocity ≤ 127) ∧
    (0 ≤ n.channel ∧ n.channel ≤ 15) ∧ 0 < n.duration ∧ 0 ≤ n.start_beat

instance (n : Note) : Decidable n.Valid := by unfold Note.Valid; infer_instance

/-- `Note(...)` construction: `__post_init__` validates or raises. -/
def mkNote (pitch velocity : ℤ) (duration start_beat : ℚ) (channel : ℤ) : Option Note :=
  if (Note.mk pitch velocity duration start_beat channel).Valid then
    some (Note.mk pitch velocity duration start_beat channel)
  else none

/-- `Note.to_tuple`: `(pitch, velocity, channel, duration)`. -/
def Note.to_tuple (n : Note) : ℤ × ℤ × ℤ × ℚ :=
  (n.pitch, n.velocity, n.channel, n.duration)

/-- `Sequence` dataclass. -/
structure Sequence where
  notes : List Note
  tempo_bpm : Option ℚ
  loop : Bool
  name : Option String
deriving DecidableEq, Repr

/-- The checks of `Sequence.__post_init__`. -/
def Sequence.Valid (s : Sequence) : Prop :=
  s.notes ≠ [] ∧ (∀ t ∈ s.tempo_bpm, 0 < t)

instance (s : Sequence) : Decidable s.Valid := by unfold Sequence.Valid; infer_instance

/-- `Sequence(...)` construction with `__post_init__` validation. -/
def mkSequence (notes : List Note) (tempo_bpm : Option ℚ) (loop : Bool)
    (name : Option String) : Option Sequence :=
  if (Sequence.mk notes tempo_bpm loop name).Valid then
    some (Sequence.mk notes tempo_bpm loop name)
  else none

/-- `Sequence.to_tuple_list`. -/
def Sequence.to_tuple_list (s : Sequence) : List (ℤ × ℤ × ℤ × ℚ) :=
  s.notes.map Note.to_tuple

/-- `Sequence.total_duration`: `max(start_beat + duration)` over the
notes, `0.0` for no notes. -/
def Sequence.total_duration (s : Sequence) : ℚ :=
  match s.notes with
  | [] => 0
  | n :: rest => rest.foldl (fun m x => max m (x.start_beat + x.duration)) (n.start_beat + n.duration)

/-- The loop body of `Sequence.from_tuple_list`: build one `Note` per
4-tuple, threading `current_beat` (the running sum of durations) as each
note's `start_beat`.  (The source raises on tuples that do not have four
elements; the embedding types tuples as 4-tuples, so that branch is
unrepresentable.) -/
def fromTupleListAux : List (ℤ × ℤ × ℤ × ℚ) → ℚ → Option (List Note)
  | [], _ => some []
  | (pitch, velocity, channel, duration) :: rest, current_beat => do
    let note ← mkNote pitch velocity duration current_beat channel
    let notes ← fromTupleListAux rest (current_beat + duration)
    pure (note :: notes)

/-- `Sequence.from_tuple_list(tuples, **kwargs)`; the call sites in the
repository pass at most `loop`, so the other keyword parameters stay at
their dataclass defaults. -/
def Sequence.from_tuple_list (tuples : List (ℤ × ℤ × ℤ × ℚ)) (loop : Bool) : Option Sequence := do
  let notes ← fromTupleListAux tuples 0
  mkSequence notes none loop none

/-! ### Sequencer (`src/midi_generator/sequencer.py`)

The per-note closures built in `_schedule_iteration` (and the
`schedule_next` closure of the loop branch) are defunctionalised into
`MidiAction`; a `noteOn`/`noteOff` value records exactly the arguments
the closure would pass to the `MIDIController` sink, and `scheduleNext`
records the captured `(sequence_id, next_start)` pair. -/

/-- Defunctionalised sequencer callbacks. -/
inductive MidiAction where
  | noteOn (pitch velocity channel : ℤ)
  | noteOff (pitch channel : ℤ)
  | scheduleNext (sequence_id : ℤ) (next_start : ℚ)
deriving DecidableEq, Repr

/-- `SequenceState` dataclass. -/
structure SequenceState where
  sequence : Sequence
  beats_per_note : ℚ
  current_iteration : ℤ
  sequence_length : ℚ
deriving DecidableEq, Repr

/-- State of a `MIDISequencer`: `active_sequences` dict (association
list) and `_next_sequence_id`. -/
structure MIDISequencer where
  active_sequences : List (ℤ × SequenceState)
  next_sequence_id : ℤ
deriving DecidableEq, Repr

namespace MIDISequencer

/-- Dictionary lookup `self.active_sequences[sid]` / `sid in self.active_sequences`. -/
def lookup (m : List (ℤ × SequenceState)) (sid : ℤ) : Option SequenceState :=
  match m.find? (fun kv => kv.1 == sid) with
  | some kv => some kv.2
  | none => none

/-- In-place mutation of the dict entry for `sid`. -/
def updateEntry (m : List (ℤ × SequenceState)) (sid : ℤ) (st : SequenceState) :
    List (ℤ × SequenceState) :=
  m.map (fun kv => if kv.1 == sid then (kv.1, st) else kv)

/-- The two `schedule_event` calls of the per-note body of
`_schedule_iteration`: a concurrent note-on at
`absolute_beat = start_beat + note.start_beat` and a concurrent note-off
at `absolute_beat + note.duration`. -/
def scheduleOneNote (tr : PreciseTransport MidiAction) (now : ℤ) (start_beat : ℚ)
    (note : Note) : PreciseTransport MidiAction :=
  (PreciseTransport.schedule_event
    ((PreciseTransport.schedule_event tr now (start_beat + note.start_beat)
        (MidiAction.noteOn note.pitch note.velocity note.channel) true).1)
    now (start_beat + note.start_beat + note.duration)
    (MidiAction.noteOff note.pitch note.channel) true).1

/-- The `for note in seq_obj.notes` loop of `_schedule_iteration`. -/
def scheduleNotes (now : ℤ) (start_beat : ℚ) :
    PreciseTransport MidiAction → List Note → PreciseTransport MidiAction
  | tr, [] => tr
  | tr, note :: rest => scheduleNotes now start_beat (scheduleOneNote tr now start_beat note) rest

/-- `_schedule_iteration(sequence_id, start_beat)`: missing id is a
warning-and-return; otherwise schedule every note, and if the sequence's
`loop` flag is set, bump `current_iteration` and schedule the
`schedule_next` closure at `next_start = start_beat + sequence_length`
through plain `schedule_event` (hence `concurrent=True`). -/
def schedule_iteration (seq : MIDISequencer) (tr : PreciseTransport MidiAction)
    (now : ℤ) (sequence_id : ℤ) (start_beat : ℚ) :
    MIDISequencer × PreciseTransport MidiAction :=
  match lookup seq.active_sequences sequence_id with
  | none => (seq, tr)
  | some state =>
    let tr1 := scheduleNotes now start_beat tr state.sequence.notes
    if state.sequence.loop then
      let seq1 : MIDISequencer :=
        { seq with
            active_sequences := updateEntry seq.active_sequences sequence_id
              { state with current_iteration := state.current_iteration + 1 } }
      (seq1,
        (PreciseTransport.schedule_event tr1 now (start_beat + state.sequence_length)
          (MidiAction.scheduleNext sequence_id (start_beat + state.sequence_length)) true).1)
    else (seq, tr1)

/-- `start_loop(sequence_id)`: unknown id raises `KeyError`; a sequence
that was not looping gets a fresh iteration scheduled from
`transport.current_beat`; one that was already looping is a warning
no-op.  (The source never assigns `state.sequence.loop`.) -/
def start_loop (seq : MIDISequencer) (tr : PreciseTransport MidiAction)
    (now : ℤ) (sequence_id : ℤ) :
    Except Unit (MIDISequencer × PreciseTransport MidiAction) :=
  match lookup seq.active_sequences sequence_id with
  | some state =>
    if state.sequence.loop = false then
      Except.ok (schedule_iteration seq tr now sequence_id (tr.current_beat now))
    else
      Except.ok (seq, tr)
  | none => Except.error ()

/-- `stop_loop(sequence_id)`: unknown id raises `KeyError`; otherwise
set the owning `Sequence`'s `loop` flag to `False`. -/
def stop_loop (seq : MIDISequencer) (sequence_id : ℤ) : Except Unit MIDISequencer :=
  match lookup seq.active_sequences sequence_id with
  | some state =>
    Except.ok
      { seq with
          active_sequences := updateEntry seq.active_sequences sequence_id
            { state with sequence := { state.sequence with loop := false } } }
  | none => Except.error ()

end MIDISequencer

/-! ### Instrument (`src/composer/instrument.py`) -/

/-- `InstrumentConfig` dataclass (validated fields). -/
structure InstrumentConfig where
  channel : ℤ
  name : Option String
  default_velocity : ℤ
  transpose : ℤ
deriving DecidableEq, Repr

/-- The checks of `InstrumentConfig.__post_init__`. -/
def InstrumentConfig.Valid (c : InstrumentConfig) : Prop :=
  (0 ≤ c.channel ∧ c.channel ≤ 15) ∧ (0 ≤ c.default_velocity ∧ c.default_velocity ≤ 127) ∧
    (-127 ≤ c.transpose ∧ c.transpose ≤ 127)

/-- `Instrument._apply_transpose`: add `transpose`, clamp to `0..127`. -/
def Instrument.apply_transpose (config : InstrumentConfig) (pitch : ℤ) : ℤ :=
  max 0 (min 127 (pitch + config.transpose))

/-- `Instrument.stop_sequence(sequence_id)` acting on the
`_active_sequences` set (modelled as a duplicate-free list): when the id
is tracked, the sequence sink's `stop_sequence` is called (recorded in
the returned call list) and the id is discarded; otherwise the method
silently does nothing.  The `Except` layer records whether any error
surfaces to the caller: the source has no raising path here, so every
branch is `Except.ok`. -/
def Instrument.stop_sequence (active_sequences : List ℤ) (sequence_id : ℤ) :
    Except Unit (List ℤ × List ℤ) :=
  if sequence_id ∈ active_sequences then
    Except.ok (active_sequences.erase sequence_id, [sequence_id])
  else
    Except.ok (active_sequences, [])

/-! ### Concrete fixtures used by witnesses and counterexamples

Transports are built directly in the state they would be in after
`start()` (`is_playing = True`, `start_time_ns` recorded): field order is
`bpm, ns_per_beat, is_playing, current_beat_stored, start_time_ns,
next_event_id, events`, with `ns_per_beat = 60e9 / bpm`. -/

/-- A freshly started 120 BPM transport (`ns_per_beat = 5·10^8`). -/
def tr120 : PreciseTransport Unit :=
  ⟨120, 500000000, true, 0, 0, 0, []⟩

/-- A 120 BPM transport holding one pending event exactly at beat 1
(timestamp `5·10^8` ns). -/
def tr120queued : PreciseTransport Unit :=
  ⟨120, 500000000, true, 0, 0, 1, [⟨500000000, (), some 0, true⟩]⟩

/-- A 120 BPM transport holding one pending critical event whose
timestamp (50 ns) is already past due at `now = 100`. -/
def tr120past : PreciseTransport Unit :=
  ⟨120, 500000000, true, 0, 0, 1, [⟨50, (), some 0, false⟩]⟩

/-- A transport with a one-nanosecond beat (`bpm = 6·10^10`) holding one
pending critical (`concurrent=False`) event at timestamp 5. -/
def trCrit : PreciseTransport Unit :=
  ⟨60000000000, 1, true, 0, 0, 1, [⟨5, (), some 0, false⟩]⟩

/-- Four events sharing timestamp 100, with event ids 0..3. -/
def tiedEvent (i : ℤ) : TimedEvent Unit := ⟨100, (), some i, true⟩

/-- The queue obtained by `heappush`ing the four tied events in id order. -/
def tiedHeap : List (TimedEvent Unit) :=
  heappush eventLT (heappush eventLT (heappush eventLT
    (heappush eventLT [] (tiedEvent 0)) (tiedEvent 1)) (tiedEvent 2)) (tiedEvent 3)

/-- A valid one-note sequence (`pitch 60, velocity 100, duration 1,
start_beat 0, channel 0`) with `loop=False`. -/
def seqNoLoop : Sequence := ⟨[⟨60, 100, 1, 0, 0⟩], none, false, none⟩

/-- The same one-note sequence with `loop=True`. -/
def seqLoop : Sequence := ⟨[⟨60, 100, 1, 0, 0⟩], none, true, none⟩

/-- Sequencer state for `seqNoLoop` registered under sequence id 0. -/
def seqr6 : MIDISequencer := ⟨[(0, ⟨seqNoLoop, 1, 0, 1⟩)], 1⟩

/-- Sequencer state for `seqLoop` registered under sequence id 0. -/
def seqr5 : MIDISequencer := ⟨[(0, ⟨seqLoop, 1, 0, 1⟩)], 1⟩

/-- A freshly started transport with a one-nanosecond beat and an empty
queue, used as the sequencer's transport. -/
def trSeq : PreciseTransport MidiAction :=
  ⟨60000000000, 1, true, 0, 0, 0, []⟩

/-- The validation conditions `Note.__post_init__` imposes on the fields
coming from one legacy 4-tuple `(pitch, velocity, channel, duration)`
(the claim C10 side condition). -/
def TupleValid (t : ℤ × ℤ × ℤ × ℚ) : Prop :=
  (0 ≤ t.1 ∧ t.1 ≤ 127) ∧ (0 ≤ t.2.1 ∧ t.2.1 ≤ 127) ∧
    (0 ≤ t.2.2.1 ∧ t.2.2.1 ≤ 15) ∧ 0 < t.2.2.2

/-! ### Properties of `pyInt` -/

theorem pyInt_of_nonneg {q : ℚ} (h : 0 ≤ q) : pyInt q = ⌊q⌋ := if_pos h

theorem pyInt_mono {q r : ℚ} (h : q ≤ r) : pyInt q ≤ pyInt r := by
  unfold pyInt
  rcases le_or_lt 0 q with hq | hq
  · rw [if_pos hq, if_pos (hq.trans h)]
    exact Int.floor_le_floor h
  · rcases le_or_lt 0 r with hr | hr
    · rw [if_neg (not_le.mpr hq), if_pos hr]
      exact le_trans (Int.ceil_le.mpr (by exact_mod_cast hq.le)) (Int.floor_nonneg.mpr hr)
    · rw [if_neg (not_le.mpr hq), if_neg (not_le.mpr hr)]
      exact Int.ceil_le_ceil h

/-- Evaluation rule for `pyInt` at a non-negative rational bracketed by
an integer. -/
theorem pyInt_eval (q : ℚ) (n : ℤ) (h0 : 0 ≤ q) (h1 : (n : ℚ) ≤ q) (h2 : q < n + 1) :
    pyInt q = n := by
  rw [pyInt_of_nonneg h0]
  exact Int.floor_eq_iff.mpr ⟨h1, h2⟩

/-- `int(0.0) = 0`. -/
theorem pyInt_zero_eq : pyInt 0 = 0 := by
  rw [pyInt_of_nonneg le_rfl, Int.floor_zero]

/-- `int(1.0) = 1`. -/
theorem pyInt_one_eq : pyInt 1 = 1 := by
  rw [pyInt_of_nonneg zero_le_one, Int.floor_one]

/-- `int(2.0) = 2`. -/
theorem pyInt_two_eq : pyInt 2 = 2 :=
  pyInt_eval 2 2 (by norm_num) (by norm_num) (by norm_num)

/-! ### Multiset behaviour of `heappush`

`heappush lt heap item` is a permutation of `item :: heap`; this is what
the transport-level queue-membership proofs rest on. -/

theorem set_perm_cons_eraseIdx :
    ∀ (l : List α) (i : ℕ) (v : α), i < l.length →
      (l.set i v).Perm (v :: l.eraseIdx i) := by
  intro l
  induction l with
  | nil => intro i v h; simp at h
  | cons a t ih =>
    intro i v h
    cases i with
    | zero => simp [List.set]
    | succ k =>
      have hk : k < t.length := by simpa using h
      exact ((ih k v hk).cons a).trans (List.Perm.swap v a _)

theorem getD_cons_eraseIdx_perm :
    ∀ (l : List α) (i : ℕ) (d : α), i < l.length →
      l.Perm (l.getD i d :: l.eraseIdx i) := by
  intro l
  induction l with
  | nil => intro i d h; simp at h
  | cons a t ih =>
    intro i d h
    cases i with
    | zero => simp
    | succ k =>
      have hk : k < t.length := by simpa using h
      exact ((ih k d hk).cons a).trans (List.Perm.swap _ a _)

theorem getD_set_ne (l : List α) {i j : ℕ} (h : i ≠ j) (v d : α) :
    (l.set i v).getD j d = l.getD j d := by
  simp [List.getD_eq_getElem?_getD, List.getElem?_set_ne h]

theorem set_set_perm_of_getD {l : List α} {i j : ℕ} (hij : i ≠ j)
    (hi : i < l.length) (hj : j < l.length) (v w d : α) (hv : l.getD j d = v) :
    ((l.set i v).set j w).Perm (l.set i w) := by
  have hj' : j < (l.set i v).length := by simpa using hj
  have p1 := set_perm_cons_eraseIdx (l.set i v) j w hj'
  have p2 := getD_cons_eraseIdx_perm (l.set i v) j d hj'
  rw [getD_set_ne l hij, hv] at p2
  have p3 := set_perm_cons_eraseIdx l i v hi
  have e : ((l.set i v).eraseIdx j).Perm (l.eraseIdx i) :=
    (p2.symm.trans p3).cons_inv
  have p4 := set_perm_cons_eraseIdx l i w hi
  exact p1.trans ((e.cons w).trans p4.symm)

theorem siftdown_perm (lt : α → α → Bool) :
    ∀ (fuel : ℕ) (heap : List α) (startpos pos : ℕ) (newitem d : α),
      pos < heap.length →
      (siftdown lt fuel heap startpos pos newitem d).Perm (heap.set pos newitem) := by
  intro fuel
  induction fuel with
  | zero => intro heap startpos pos newitem d _; exact List.Perm.refl _
  | succ fuel ih =>
    intro heap startpos pos newitem d hpos
    unfold siftdown
    split
    next hs =>
      split
      next hlt =>
        have hppos : (pos - 1) / 2 < (heap.set pos (heap.getD ((pos - 1) / 2) d)).length := by
          simp only [List.length_set]
          omega
        refine (ih _ startpos _ newitem d hppos).trans ?_
        exact set_set_perm_of_getD (by omega) hpos (by omega) _ newitem d rfl
      next hlt => exact List.Perm.refl _
    next hs => exact List.Perm.refl _

theorem set_append_last (h : List α) (x y : α) :
    (h ++ [x]).set h.length y = h ++ [y] := by
  induction h with
  | nil => rfl
  | cons a t ih => simp [List.set, ih]

theorem heappush_perm (lt : α → α → Bool) (heap : List α) (item : α) :
    (heappush lt heap item).Perm (item :: heap) := by
  have hpos : heap.length < (heap ++ [item]).length := by simp
  have p := siftdown_perm lt (heap.length + 1) (heap ++ [item]) 0 heap.length item item hpos
  rw [set_append_last] at p
  refine p.trans ?_
  have pm : (heap ++ item :: []).Perm (item :: (heap ++ [])) := List.perm_middle
  rw [List.append_nil] at pm
  exact pm

theorem mem_heappush (lt : α → α → Bool) (heap : List α) (item y : α) :
    y ∈ heappush lt heap item ↔ y = item ∨ y ∈ heap := by
  rw [(heappush_perm lt heap item).mem_iff, List.mem_cons]

/-- Pushing onto the empty heap yields a singleton. -/
theorem heappush_nil (lt : α → α → Bool) (x : α) : heappush lt [] x = [x] := rfl

/-! ### Transport queue lemmas -/

namespace PreciseTransport

theorem schedule_event_is_playing (tr : PreciseTransport α) (now : ℤ) (beat : ℚ)
    (cb : α) (conc : Bool) :
    (schedule_event tr now beat cb conc).1.is_playing = tr.is_playing := by
  unfold schedule_event
  split
  · rfl
  · split <;> rfl

theorem schedule_event_ns_per_beat (tr : PreciseTransport α) (now : ℤ) (beat : ℚ)
    (cb : α) (conc : Bool) :
    (schedule_event tr now beat cb conc).1.ns_per_beat = tr.ns_per_beat := by
  unfold schedule_event
  split
  · rfl
  · split <;> rfl

theorem schedule_event_start_time_ns (tr : PreciseTransport α) (now : ℤ) (beat : ℚ)
    (cb : α) (conc : Bool) :
    (schedule_event tr now beat cb conc).1.start_time_ns = tr.start_time_ns := by
  unfold schedule_event
  split
  · rfl
  · split <;> rfl

theorem schedule_event_mem_mono (tr : PreciseTransport α) (now : ℤ) (beat : ℚ)
    (cb : α) (conc : Bool) (e : TimedEvent α) (he : e ∈ tr.events) :
    e ∈ (schedule_event tr now beat cb conc).1.events := by
  unfold schedule_event
  split
  · exact he
  · split
    · exact he
    · exact (mem_heappush _ _ _ _).mpr (Or.inr he)

theorem schedule_event_queues (tr : PreciseTransport α) (now : ℤ) (beat : ℚ)
    (cb : α) (conc : Bool) (hplay : tr.is_playing = true)
    (hfut : now < event_timestamp tr beat) :
    (⟨event_timestamp tr beat, cb, some tr.next_event_id, conc⟩ : TimedEvent α) ∈
      (schedule_event tr now beat cb conc).1.events := by
  unfold schedule_event
  rw [if_neg (by simp [hplay]), if_neg (not_le.mpr hfut)]
  exact (mem_heappush _ _ _ _).mpr (Or.inl rfl)

theorem foldl_heappush_mem {β : Type} (lt : α → α → Bool) (f : β → α)
    (p : β → Prop) [DecidablePred p] :
    ∀ (l : List β) (h0 : List α) (y : α),
      (y ∈ l.foldl (fun h e => if p e then heappush lt h (f e) else h) h0) ↔
        (y ∈ h0 ∨ ∃ e ∈ l, p e ∧ y = f e) := by
  intro l
  induction l with
  | nil => intro h0 y; simp
  | cons b l ih =>
    intro h0 y
    simp only [List.foldl_cons]
    by_cases hb : p b
    · rw [if_pos hb, ih, mem_heappush]
      simp only [List.mem_cons]
      constructor
      · rintro ((rfl | h) | ⟨e, he, hpe, hy⟩)
        · exact Or.inr ⟨b, Or.inl rfl, hb, rfl⟩
        · exact Or.inl h
        · exact Or.inr ⟨e, Or.inr he, hpe, hy⟩
      · rintro (h | ⟨e, rfl | he, hpe, hy⟩)
        · exact Or.inl (Or.inr h)
        · exact Or.inl (Or.inl hy)
        · exact Or.inr ⟨e, he, hpe, hy⟩
    · rw [if_neg hb, ih]
      simp only [List.mem_cons]
      constructor
      · rintro (h | ⟨e, he, hpe, hy⟩)
        · exact Or.inl h
        · exact Or.inr ⟨e, Or.inr he, hpe, hy⟩
      · rintro (h | ⟨e, rfl | he, hpe, hy⟩)
        · exact Or.inl h
        · exact absurd hpe hb
        · exact Or.inr ⟨e, he, hpe, hy⟩

theorem set_tempo_mem (tr : PreciseTransport α) (now : ℤ) (bpm : ℚ)
    (hplay : tr.is_playing = true) (y : TimedEvent α) :
    y ∈ (set_tempo tr now bpm).events ↔
      ∃ e ∈ tr.events, now < e.timestamp_ns ∧
        y = reschedule_for_tempo tr.start_time_ns tr.ns_per_beat
              (NANOSECONDS_PER_MINUTE / bpm) e := by
  unfold set_tempo
  rw [if_pos hplay]
  have h := foldl_heappush_mem eventLT
    (reschedule_for_tempo tr.start_time_ns tr.ns_per_beat (NANOSECONDS_PER_MINUTE / bpm))
    (fun e : TimedEvent α => now < e.timestamp_ns) tr.events [] y
  simpa using h

end PreciseTransport

/-! ### Sequencer scheduling lemmas -/

namespace MIDISequencer

open PreciseTransport

theorem event_timestamp_congr {tr tr' : PreciseTransport MidiAction}
    (hs : tr'.start_time_ns = tr.start_time_ns)
    (hn : tr'.ns_per_beat = tr.ns_per_beat) (beat : ℚ) :
    tr'.event_timestamp beat = tr.event_timestamp beat := by
  unfold PreciseTransport.event_timestamp
  rw [hs, hn]

theorem scheduleOneNote_is_playing (tr : PreciseTransport MidiAction) (now : ℤ)
    (base : ℚ) (note : Note) :
    (scheduleOneNote tr now base note).is_playing = tr.is_playing := by
  unfold scheduleOneNote
  rw [schedule_event_is_playing, schedule_event_is_playing]

theorem scheduleOneNote_ns_per_beat (tr : PreciseTransport MidiAction) (now : ℤ)
    (base : ℚ) (note : Note) :
    (scheduleOneNote tr now base note).ns_per_beat = tr.ns_per_beat := by
  unfold scheduleOneNote
  rw [schedule_event_ns_per_beat, schedule_event_ns_per_beat]

theorem scheduleOneNote_start_time_ns (tr : PreciseTransport MidiAction) (now : ℤ)
    (base : ℚ) (note : Note) :
    (scheduleOneNote tr now base note).start_time_ns = tr.start_time_ns := by
  unfold scheduleOneNote
  rw [schedule_event_start_time_ns, schedule_event_start_time_ns]

theorem scheduleOneNote_mem_mono (tr : PreciseTransport MidiAction) (now : ℤ)
    (base : ℚ) (note : Note) (e : TimedEvent MidiAction) (he : e ∈ tr.events) :
    e ∈ (scheduleOneNote tr now base note).events :=
  schedule_event_mem_mono _ _ _ _ _ _ (schedule_event_mem_mono _ _ _ _ _ _ he)

theorem scheduleNotes_is_playing (now : ℤ) (base : ℚ) :
    ∀ (notes : List Note) (tr : PreciseTransport MidiAction),
      (scheduleNotes now base tr notes).is_playing = tr.is_playing := by
  intro notes
  induction notes with
  | nil => intro tr; rfl
  | cons n rest ih =>
    intro tr
    show (scheduleNotes now base (scheduleOneNote tr now base n) rest).is_playing = _
    rw [ih, scheduleOneNote_is_playing]

theorem scheduleNotes_ns_per_beat (now : ℤ) (base : ℚ) :
    ∀ (notes : List Note) (tr : PreciseTransport MidiAction),
      (scheduleNotes now base tr notes).ns_per_beat = tr.ns_per_beat := by
  intro notes
  induction notes with
  | nil => intro tr; rfl
  | cons n rest ih =>
    intro tr
    show (scheduleNotes now base (scheduleOneNote tr now base n) rest).ns_per_beat = _
    rw [ih, scheduleOneNote_ns_per_beat]

theorem scheduleNotes_start_time_ns (now : ℤ) (base : ℚ) :
    ∀ (notes : List Note) (tr : PreciseTransport MidiAction),
      (scheduleNotes now base tr notes).start_time_ns = tr.start_time_ns := by
  intro notes
  induction notes with
  | nil => intro tr; rfl
  | cons n rest ih =>
    intro tr
    show (scheduleNotes now base (scheduleOneNote tr now base n) rest).start_time_ns = _
    rw [ih, scheduleOneNote_start_time_ns]

theorem scheduleNotes_mem_mono (now : ℤ) (base : ℚ) :
    ∀ (notes : List Note) (tr : PreciseTransport MidiAction) (e : TimedEvent MidiAction),
      e ∈ tr.events → e ∈ (scheduleNotes now base tr notes).events := by
  intro notes
  induction notes with
  | nil => intro tr e he; exact he
  | cons n rest ih =>
    intro tr e he
    exact ih _ _ (scheduleOneNote_mem_mono tr now base n e he)

/-- After `scheduleOneNote`, both halves of the pair are in the queue,
provided the note-on is in the future, the note's duration is positive
and `ns_per_beat` is non-negative (so the note-off is no earlier). -/
theorem scheduleOneNote_adds (tr : PreciseTransport MidiAction) (now : ℤ)
    (base : ℚ) (note : Note) (hplay : tr.is_playing = true)
    (hnpb : 0 ≤ tr.ns_per_beat) (hdur : 0 < note.duration)
    (hfut : now < tr.event_timestamp (base + note.start_beat)) :
    (∃ e ∈ (scheduleOneNote tr now base note).events,
        e.callback = MidiAction.noteOn note.pitch note.velocity note.channel ∧
        e.timestamp_ns = tr.event_timestamp (base + note.start_beat) ∧
        e.concurrent = true) ∧
    ∃ e ∈ (scheduleOneNote tr now base note).events,
        e.callback = MidiAction.noteOff note.pitch note.channel ∧
        e.timestamp_ns = tr.event_timestamp (base + note.start_beat + note.duration) ∧
        tr.event_timestamp (base + note.start_beat) ≤ e.timestamp_ns ∧
        e.concurrent = true := by
  have hts : tr.event_timestamp (base + note.start_beat) ≤
      tr.event_timestamp (base + note.start_beat + note.duration) := by
    unfold PreciseTransport.event_timestamp
    have hmul : (base + note.start_beat) * tr.ns_per_beat ≤
        (base + note.start_beat + note.duration) * tr.ns_per_beat :=
      mul_le_mul_of_nonneg_right (by linarith) hnpb
    exact add_le_add_left (pyInt_mono hmul) _
  set tr1 := (schedule_event tr now (base + note.start_beat)
    (MidiAction.noteOn note.pitch note.velocity note.channel) true).1 with htr1
  have h1s : tr1.start_time_ns = tr.start_time_ns := schedule_event_start_time_ns _ _ _ _ _
  have h1n : tr1.ns_per_beat = tr.ns_per_beat := schedule_event_ns_per_beat _ _ _ _ _
  have h1p : tr1.is_playing = true := by rw [schedule_event_is_playing]; exact hplay
  have hcongr := event_timestamp_congr h1s h1n (base + note.start_beat + note.duration)
  have hfut2 : now < tr1.event_timestamp (base + note.start_beat + note.duration) := by
    rw [hcongr]; exact lt_of_lt_of_le hfut hts
  constructor
  · refine ⟨⟨tr.event_timestamp (base + note.start_beat),
      MidiAction.noteOn note.pitch note.velocity note.channel,
      some tr.next_event_id, true⟩, ?_, rfl, rfl, rfl⟩
    exact schedule_event_mem_mono _ _ _ _ _ _
      (schedule_event_queues tr now (base + note.start_beat) _ true hplay hfut)
  · refine ⟨⟨tr1.event_timestamp (base + note.start_beat + note.duration),
      MidiAction.noteOff note.pitch note.channel,
      some tr1.next_event_id, true⟩, ?_, rfl, ?_, ?_, rfl⟩
    · exact schedule_event_queues tr1 now (base + note.start_beat + note.duration) _ true h1p hfut2
    · exact hcongr
    · rw [hcongr]; exact hts

/-- Each note of the list gets its on/off pair enqueued by the note loop
of `_schedule_iteration` (under the same side conditions). -/
theorem scheduleNotes_adds (now : ℤ) (base : ℚ) :
    ∀ (notes : List Note) (tr : PreciseTransport MidiAction) (note : Note),
      note ∈ notes → tr.is_playing = true → 0 ≤ tr.ns_per_beat →
      0 < note.duration → now < tr.event_timestamp (base + note.start_beat) →
      (∃ e ∈ (scheduleNotes now base tr notes).events,
          e.callback = MidiAction.noteOn note.pitch note.velocity note.channel ∧
          e.timestamp_ns = tr.event_timestamp (base + note.start_beat) ∧
          e.concurrent = true) ∧
      ∃ e ∈ (scheduleNotes now base tr notes).events,
          e.callback = MidiAction.noteOff note.pitch note.channel ∧
          e.timestamp_ns = tr.event_timestamp (base + note.start_beat + note.duration) ∧
          tr.event_timestamp (base + note.start_beat) ≤ e.timestamp_ns ∧
          e.concurrent = true := by
  intro notes
  induction notes with
  | nil => intro tr note hmem; exact absurd hmem (List.not_mem_nil note)
  | cons n rest ih =>
    intro tr note hmem hplay hnpb hdur hfut
    rcases List.mem_cons.mp hmem with rfl | hmem'
    · obtain ⟨⟨e1, he1, hc1, ht1, hcc1⟩, ⟨e2, he2, hc2, ht2, hle2, hcc2⟩⟩ :=
        scheduleOneNote_adds tr now base note hplay hnpb hdur hfut
      exact ⟨⟨e1, scheduleNotes_mem_mono now base rest _ e1 he1, hc1, ht1, hcc1⟩,
        ⟨e2, scheduleNotes_mem_mono now base rest _ e2 he2, hc2, ht2, hle2, hcc2⟩⟩
    · set tr1 := scheduleOneNote tr now base n with htr1
      have h1s : tr1.start_time_ns = tr.start_time_ns := scheduleOneNote_start_time_ns _ _ _ _
      have h1n : tr1.ns_per_beat = tr.ns_per_beat := scheduleOneNote_ns_per_beat _ _ _ _
      have h1p : tr1.is_playing = true := by rw [scheduleOneNote_is_playing]; exact hplay
      have hcon : tr1.event_timestamp (base + note.start_beat) =
          tr.event_timestamp (base + note.start_beat) := event_timestamp_congr h1s h1n _
      have hcod : tr1.event_timestamp (base + note.start_beat + note.duration) =
          tr.event_timestamp (base + note.start_beat + note.duration) :=
        event_timestamp_congr h1s h1n _
      have := ih tr1 note hmem' h1p (h1n ▸ hnpb) hdur (hcon ▸ hfut)
      rw [hcon, hcod] at this
      exact this

end MIDISequencer

/-- The note-building loop of `from_tuple_list` succeeds on valid tuples
and its notes map back to the original tuples. -/
theorem fromTupleListAux_sound :
    ∀ (x : List (ℤ × ℤ × ℤ × ℚ)) (b : ℚ), 0 ≤ b → (∀ t ∈ x, TupleValid t) →
      ∃ notes, fromTupleListAux x b = some notes ∧ notes.map Note.to_tuple = x ∧
        notes.length = x.length := by
  intro x
  induction x with
  | nil => intro b _ _; exact ⟨[], rfl, rfl, rfl⟩
  | cons t rest ih =>
    obtain ⟨p, v, c, d⟩ := t
    intro b hb hval
    have htv : TupleValid (p, v, c, d) := hval _ (List.mem_cons_self _ _)
    have hnote : mkNote p v d b c = some ⟨p, v, d, b, c⟩ := by
      unfold mkNote
      rw [if_pos]
      exact ⟨htv.1, htv.2.1, htv.2.2.1, htv.2.2.2, hb⟩
    have hb' : 0 ≤ b + d := add_nonneg hb (le_of_lt htv.2.2.2)
    obtain ⟨notes, h1, h2, h3⟩ := ih (b + d) hb' (fun u hu => hval u (List.mem_cons_of_mem _ hu))
    refine ⟨⟨p, v, d, b, c⟩ :: notes, ?_, ?_, ?_⟩
    · simp [fromTupleListAux, hnote, h1]
    · simp [Note.to_tuple, h2]
    · simp [h3]

/-! ### The claims -/

/-- Claim C1: for every sequence registered with the sequencer and every
note of it, whenever `_schedule_iteration` enqueues the note-on on a
running transport (its fire time is still in the future, so it is not
executed inline), a matching note-off with the same pitch and channel is
also enqueued, and the note-off's fire timestamp is at least the
note-on's (the note's duration is positive by `Note` validation). -/
theorem C1_note_on_off_paired (seq : MIDISequencer) (tr : PreciseTransport MidiAction)
    (now : ℤ) (sid : ℤ) (base : ℚ) (st : SequenceState)
    (hlk : MIDISequencer.lookup seq.active_sequences sid = some st)
    (hplay : tr.is_playing = true) (hnpb : 0 ≤ tr.ns_per_beat)
    (note : Note) (hmem : note ∈ st.sequence.notes) (hvalid : note.Valid)
    (hfut : now < tr.event_timestamp (base + note.start_beat)) :
    (∃ e ∈ (MIDISequencer.schedule_iteration seq tr now sid base).2.events,
        e.callback = MidiAction.noteOn note.pitch note.velocity note.channel ∧
        e.timestamp_ns = tr.event_timestamp (base + note.start_beat)) ∧
    ∃ e ∈ (MIDISequencer.schedule_iteration seq tr now sid base).2.events,
        e.callback = MidiAction.noteOff note.pitch note.channel ∧
        e.timestamp_ns = tr.event_timestamp (base + note.start_beat + note.duration) ∧
        tr.event_timestamp (base + note.start_beat) ≤ e.timestamp_ns := by
  have hdur : 0 < note.duration := hvalid.2.2.2.1
  obtain ⟨⟨e1, he1, hc1, ht1, _⟩, ⟨e2, he2, hc2, ht2, hle2, _⟩⟩ :=
    MIDISequencer.scheduleNotes_adds now base st.sequence.notes tr note hmem hplay hnpb hdur hfut
  unfold MIDISequencer.schedule_iteration
  rw [hlk]
  cases hloop : st.sequence.loop with
  | false =>
    simp only [hloop, if_neg]
    exact ⟨⟨e1, he1, hc1, ht1⟩, ⟨e2, he2, hc2, ht2, hle2⟩⟩
  | true =>
    simp only [hloop, if_pos]
    refine ⟨⟨e1, ?_, hc1, ht1⟩, ⟨e2, ?_, hc2, ht2, hle2⟩⟩
    · exact PreciseTransport.schedule_event_mem_mono _ _ _ _ _ _ he1
    · exact PreciseTransport.schedule_event_mem_mono _ _ _ _ _ _ he2

/-- Witness for C1: a concrete one-note sequence scheduled at beat 1 on
a freshly started transport satisfies every hypothesis of
`C1_note_on_off_paired`. -/
theorem C1_witness :
    MIDISequencer.lookup seqr6.active_sequences 0 = some ⟨seqNoLoop, 1, 0, 1⟩ ∧
    trSeq.is_playing = true ∧ (0 : ℚ) ≤ trSeq.ns_per_beat ∧
    (⟨60, 100, 1, 0, 0⟩ : Note) ∈ seqNoLoop.notes ∧ (⟨60, 100, 1, 0, 0⟩ : Note).Valid ∧
    (0 : ℤ) < trSeq.event_timestamp (1 + 0) ∧
    ((∃ e ∈ (MIDISequencer.schedule_iteration seqr6 trSeq 0 0 1).2.events,
        e.callback = MidiAction.noteOn 60 100 0 ∧
        e.timestamp_ns = trSeq.event_timestamp (1 + 0)) ∧
      ∃ e ∈ (MIDISequencer.schedule_iteration seqr6 trSeq 0 0 1).2.events,
        e.callback = MidiAction.noteOff 60 0 ∧
        e.timestamp_ns = trSeq.event_timestamp (1 + 0 + 1) ∧
        trSeq.event_timestamp (1 + 0) ≤ e.timestamp_ns) := by
  have hfut : (0 : ℤ) < trSeq.event_timestamp (1 + 0) := by
    show (0 : ℤ) < 0 + pyInt ((1 + 0 : ℚ) * 1)
    rw [pyInt_eval ((1 + 0 : ℚ) * 1) 1 (by norm_num) (by norm_num) (by norm_num)]
    decide
  have hvalid : (⟨60, 100, 1, 0, 0⟩ : Note).Valid :=
    ⟨⟨by decide, by decide⟩, ⟨by decide, by decide⟩, ⟨by decide, by decide⟩, one_pos, le_refl 0⟩
  exact ⟨rfl, rfl, zero_le_one, List.mem_singleton.mpr rfl, hvalid, hfut,
    C1_note_on_off_paired seqr6 trSeq 0 0 1 ⟨seqNoLoop, 1, 0, 1⟩ rfl rfl zero_le_one
      ⟨60, 100, 1, 0, 0⟩ (List.mem_singleton.mpr rfl) hvalid hfut⟩

/-- Counterexample to claim C2 as stated: `set_tempo(180)` on a running
120 BPM transport moves the event pending at beat 1 (timestamp `5e8`) to
timestamp `333333333`, and the musical beat computed from the new
timestamp under the new mapping (`999999999/10^9`) is NOT equal to the
old beat (`1`): `int()` truncation loses up to one nanosecond. -/
theorem C2_counterexample :
    (PreciseTransport.set_tempo tr120queued 0 180).events.map (fun e => e.timestamp_ns) =
      [333333333] ∧
    ¬ ((((333333333 : ℤ) - tr120queued.start_time_ns : ℤ) : ℚ) / (NANOSECONDS_PER_MINUTE / 180) =
        (((500000000 : ℤ) - tr120queued.start_time_ns : ℤ) : ℚ) / tr120queued.ns_per_beat) := by
  have hp : pyInt ((((500000000 : ℤ) - 0 : ℤ) : ℚ) / 500000000 * (NANOSECONDS_PER_MINUTE / 180)) =
      333333333 := by
    apply pyInt_eval
    · norm_num [NANOSECONDS_PER_MINUTE]
    · norm_num [NANOSECONDS_PER_MINUTE]
    · norm_num [NANOSECONDS_PER_MINUTE]
  constructor
  · have hev : (PreciseTransport.set_tempo tr120queued 0 180).events =
        [PreciseTransport.reschedule_for_tempo 0 500000000 (NANOSECONDS_PER_MINUTE / 180)
          ⟨500000000, (), some 0, true⟩] := rfl
    rw [hev]
    show [(0 : ℤ) + pyInt ((((500000000 : ℤ) - 0 : ℤ) : ℚ) / 500000000 *
      (NANOSECONDS_PER_MINUTE / 180))] = [333333333]
    rw [hp]
    norm_num
  · norm_num [NANOSECONDS_PER_MINUTE, tr120queued]

/-- Claim C2 (amended): after `set_tempo` on a running transport, every
pending event with a future timestamp is rescheduled at the same musical
beat up to the one-nanosecond timestamp truncation of `int()`: the beat
computed from the new timestamp under the new mapping is at most the old
beat, and exceeds it once a single nanosecond (`1 / new_ns_per_beat`
beats) is added back.  Exact beat equality, as the original claim states
it, fails on concrete inputs. -/
theorem C2_beat_preserved_within_truncation (tr : PreciseTransport α) (now : ℤ) (bpm : ℚ)
    (hplay : tr.is_playing = true) (hstart : tr.start_time_ns ≤ now)
    (hnpb : 0 < tr.ns_per_beat) (hbpm : 0 < bpm)
    (e : TimedEvent α) (he : e ∈ tr.events) (hfut : now < e.timestamp_ns) :
    PreciseTransport.reschedule_for_tempo tr.start_time_ns tr.ns_per_beat
        (NANOSECONDS_PER_MINUTE / bpm) e ∈ (PreciseTransport.set_tempo tr now bpm).events ∧
    (((PreciseTransport.reschedule_for_tempo tr.start_time_ns tr.ns_per_beat
          (NANOSECONDS_PER_MINUTE / bpm) e).timestamp_ns - tr.start_time_ns : ℤ) : ℚ) /
        (NANOSECONDS_PER_MINUTE / bpm) ≤
      ((e.timestamp_ns - tr.start_time_ns : ℤ) : ℚ) / tr.ns_per_beat ∧
    ((e.timestamp_ns - tr.start_time_ns : ℤ) : ℚ) / tr.ns_per_beat <
      (((PreciseTransport.reschedule_for_tempo tr.start_time_ns tr.ns_per_beat
          (NANOSECONDS_PER_MINUTE / bpm) e).timestamp_ns - tr.start_time_ns : ℤ) : ℚ) /
        (NANOSECONDS_PER_MINUTE / bpm) + 1 / (NANOSECONDS_PER_MINUTE / bpm) := by
  have hnewpos : 0 < NANOSECONDS_PER_MINUTE / bpm :=
    div_pos (by norm_num [NANOSECONDS_PER_MINUTE]) hbpm
  have hobnn : 0 ≤ ((e.timestamp_ns - tr.start_time_ns : ℤ) : ℚ) / tr.ns_per_beat := by
    apply div_nonneg _ hnpb.le
    exact_mod_cast Int.sub_nonneg.mpr (hstart.trans hfut.le)
  have hxnn : 0 ≤ ((e.timestamp_ns - tr.start_time_ns : ℤ) : ℚ) / tr.ns_per_beat *
      (NANOSECONDS_PER_MINUTE / bpm) := mul_nonneg hobnn hnewpos.le
  have hts : (PreciseTransport.reschedule_for_tempo tr.start_time_ns tr.ns_per_beat
      (NANOSECONDS_PER_MINUTE / bpm) e).timestamp_ns =
      tr.start_time_ns + ⌊((e.timestamp_ns - tr.start_time_ns : ℤ) : ℚ) / tr.ns_per_beat *
        (NANOSECONDS_PER_MINUTE / bpm)⌋ := by
    show tr.start_time_ns + pyInt _ = _
    rw [pyInt_of_nonneg hxnn]
  refine ⟨(PreciseTransport.set_tempo_mem tr now bpm hplay _).mpr ⟨e, he, hfut, rfl⟩, ?_, ?_⟩
  · rw [hts, add_sub_cancel_left, div_le_iff₀ hnewpos]
    exact Int.floor_le _
  · rw [hts, add_sub_cancel_left, div_add_div_same, lt_div_iff₀ hnewpos]
    exact Int.lt_floor_add_one _

/-- Witness for C2: the amended statement applied to a transport holding
one pending critical event at timestamp 5. -/
theorem C2_witness :
    trCrit.is_playing = true ∧ trCrit.start_time_ns ≤ 0 ∧ (0 : ℚ) < trCrit.ns_per_beat ∧
    (⟨5, (), some 0, false⟩ : TimedEvent Unit) ∈ trCrit.events ∧
    (0 : ℤ) < (⟨5, (), some 0, false⟩ : TimedEvent Unit).timestamp_ns ∧
    (PreciseTransport.reschedule_for_tempo trCrit.start_time_ns trCrit.ns_per_beat
        (NANOSECONDS_PER_MINUTE / 1) ⟨5, (), some 0, false⟩ ∈
          (PreciseTransport.set_tempo trCrit 0 1).events ∧
      (((PreciseTransport.reschedule_for_tempo trCrit.start_time_ns trCrit.ns_per_beat
            (NANOSECONDS_PER_MINUTE / 1) (⟨5, (), some 0, false⟩ : TimedEvent Unit)).timestamp_ns -
          trCrit.start_time_ns : ℤ) : ℚ) / (NANOSECONDS_PER_MINUTE / 1) ≤
        (((⟨5, (), some 0, false⟩ : TimedEvent Unit).timestamp_ns - trCrit.start_time_ns : ℤ) : ℚ) /
          trCrit.ns_per_beat ∧
      (((⟨5, (), some 0, false⟩ : TimedEvent Unit).timestamp_ns - trCrit.start_time_ns : ℤ) : ℚ) /
          trCrit.ns_per_beat <
        (((PreciseTransport.reschedule_for_tempo trCrit.start_time_ns trCrit.ns_per_beat
            (NANOSECONDS_PER_MINUTE / 1) (⟨5, (), some 0, false⟩ : TimedEvent Unit)).timestamp_ns -
          trCrit.start_time_ns : ℤ) : ℚ) / (NANOSECONDS_PER_MINUTE / 1) +
          1 / (NANOSECONDS_PER_MINUTE / 1)) :=
  ⟨rfl, le_refl 0, by norm_num [trCrit], by simp [trCrit], by decide,
    C2_beat_preserved_within_truncation trCrit 0 1 rfl (le_refl 0) (by norm_num [trCrit]) one_pos
      ⟨5, (), some 0, false⟩ (by simp [trCrit]) (by decide)⟩

/-- Counterexample to claim C3 as stated: at 120 BPM
(`ns_per_beat = 5e8`) and `beat = 1/3`, the code computes
`int(beat * ns_per_beat) = 166666666` (truncation) and enqueues the
event with that timestamp, while `round(beat * ns_per_beat) = 166666667`;
the two differ, so the fire timestamp is not `start + round(...)`. -/
theorem C3_counterexample :
    PreciseTransport.event_timestamp tr120 (1/3) = 166666666 ∧
    (PreciseTransport.schedule_event tr120 0 (1/3) () true).1.events.map
      (fun e => e.timestamp_ns) = [166666666] ∧
    tr120.start_time_ns + round ((1/3 : ℚ) * tr120.ns_per_beat) = 166666667 ∧
    (166666666 : ℤ) ≠ 166666667 := by
  have hts : PreciseTransport.event_timestamp tr120 (1/3) = 166666666 := by
    show (0 : ℤ) + pyInt ((1/3 : ℚ) * 500000000) = 166666666
    rw [pyInt_eval ((1/3 : ℚ) * 500000000) 166666666 (by norm_num) (by norm_num) (by norm_num)]
    omega
  have hr : round ((1/3 : ℚ) * 500000000) = 166666667 := by
    rw [round_eq]
    exact Int.floor_eq_iff.mpr ⟨by norm_num, by norm_num⟩
  refine ⟨hts, ?_, ?_, by decide⟩
  · simp only [PreciseTransport.schedule_event]
    rw [if_neg (by simp [tr120]), if_neg (by rw [hts]; decide)]
    rw [show tr120.events = [] from rfl, heappush_nil]
    show [PreciseTransport.event_timestamp tr120 (1/3)] = [166666666]
    rw [hts]
  · show (0 : ℤ) + round ((1/3 : ℚ) * 500000000) = 166666667
    rw [hr]
    omega

/-- Claim C3 (amended): on a running transport, for a non-negative beat
and non-negative `ns_per_beat`, the fire timestamp computed by
`schedule_event` is `start_time_ns + floor(beat * ns_per_beat)`
(Python `int()` truncates, which is `floor` on non-negative values), and
the enqueued event carries exactly that timestamp. -/
theorem C3_timestamp_is_floor (tr : PreciseTransport α) (now : ℤ) (beat : ℚ)
    (cb : α) (conc : Bool) (hplay : tr.is_playing = true) (hbeat : 0 ≤ beat)
    (hnpb : 0 ≤ tr.ns_per_beat) (hfut : now < tr.event_timestamp beat) :
    tr.event_timestamp beat = tr.start_time_ns + ⌊beat * tr.ns_per_beat⌋ ∧
    (⟨tr.start_time_ns + ⌊beat * tr.ns_per_beat⌋, cb, some tr.next_event_id, conc⟩ : TimedEvent α) ∈
      (PreciseTransport.schedule_event tr now beat cb conc).1.events := by
  have h1 : tr.event_timestamp beat = tr.start_time_ns + ⌊beat * tr.ns_per_beat⌋ := by
    unfold PreciseTransport.event_timestamp
    rw [pyInt_of_nonneg (mul_nonneg hbeat hnpb)]
  refine ⟨h1, ?_⟩
  have h2 := PreciseTransport.schedule_event_queues tr now beat cb conc hplay hfut
  rwa [h1] at h2

/-- Witness for C3: the amended statement applied at beat 1 on a 120 BPM
transport. -/
theorem C3_witness :
    tr120.is_playing = true ∧ (0 : ℚ) ≤ 1 ∧ (0 : ℚ) ≤ tr120.ns_per_beat ∧
    (0 : ℤ) < tr120.event_timestamp 1 ∧
    (tr120.event_timestamp 1 = tr120.start_time_ns + ⌊(1 : ℚ) * tr120.ns_per_beat⌋ ∧
      (⟨tr120.start_time_ns + ⌊(1 : ℚ) * tr120.ns_per_beat⌋, (), some tr120.next_event_id, true⟩ :
        TimedEvent Unit) ∈
        (PreciseTransport.schedule_event tr120 0 1 () true).1.events) := by
  have hts : PreciseTransport.event_timestamp tr120 1 = 500000000 := by
    show (0 : ℤ) + pyInt ((1 : ℚ) * 500000000) = 500000000
    rw [pyInt_eval ((1 : ℚ) * 500000000) 500000000 (by norm_num) (by norm_num) (by norm_num)]
    omega
  exact ⟨rfl, zero_le_one, by norm_num [tr120], by rw [hts]; norm_num,
    C3_timestamp_is_floor tr120 0 1 () true rfl zero_le_one (by norm_num [tr120])
      (by rw [hts]; norm_num)⟩

/-- Counterexample to claim C4 as stated: `TimedEvent.__lt__` returns
`False` in both directions on two events with equal timestamps and
distinct ids (so the comparison does not order ties by `event_id`), and
draining a heap of four equal-timestamp events pushed with ids 0,1,2,3
yields pop order 0,2,1,3 — not ascending insertion order.  (This pop
order matches CPython's `heapq` exactly.) -/
theorem C4_counterexample :
    eventLT (tiedEvent 0) (tiedEvent 1) = false ∧
    eventLT (tiedEvent 1) (tiedEvent 0) = false ∧
    (PreciseTransport.collect_ready_events 1000 4 tiedHeap).1.map (fun e => e.event_id) =
      [some 0, some 2, some 1, some 3] ∧
    [some (0 : ℤ), some 2, some 1, some 3] ≠ [some 0, some 1, some 2, some 3] := by
  decide

/-- Claim C4 (amended): the comparison used for heap placement looks at
`timestamp_ns` only; two events with equal timestamps are mutually
incomparable (`__lt__` is `False` both ways), so no tie-break by
`event_id` exists and equal-timestamp events may leave the queue out of
insertion order. -/
theorem C4_equal_timestamps_unordered (e f : TimedEvent α)
    (h : e.timestamp_ns = f.timestamp_ns) :
    eventLT e f = false ∧ eventLT f e = false := by
  simp [eventLT, h]

/-- Witness for C4: two concrete tied events are mutually
incomparable. -/
theorem C4_witness :
    (tiedEvent 0).timestamp_ns = (tiedEvent 1).timestamp_ns ∧
    (eventLT (tiedEvent 0) (tiedEvent 1) = false ∧ eventLT (tiedEvent 1) (tiedEvent 0) = false) :=
  ⟨rfl, C4_equal_timestamps_unordered _ _ rfl⟩

/-- Counterexample to claim C5 as stated: scheduling an iteration of a
looping one-note sequence enqueues its self-rescheduling
(`schedule_next`) event with `concurrent = true`, not as a critical
(`concurrent = false`) event. -/
theorem C5_counterexample :
    ((MIDISequencer.schedule_iteration seqr5 trSeq 0 0 1).2.events.filter
        (fun e => match e.callback with
          | MidiAction.scheduleNext _ _ => true
          | _ => false)).map (fun e => e.concurrent) = [true] ∧
    [true] ≠ [false] := by
  refine ⟨?_, by decide⟩
  norm_num [MIDISequencer.schedule_iteration, MIDISequencer.lookup, MIDISequencer.scheduleNotes,
    MIDISequencer.scheduleOneNote, MIDISequencer.updateEntry, PreciseTransport.schedule_event,
    PreciseTransport.event_timestamp, seqr5, seqLoop, trSeq, pyInt_one_eq, pyInt_two_eq,
    heappush, siftdown, eventLT, List.find?, List.filter]

/-- Claim C5 (amended): for a looping sequence, `_schedule_iteration`
enqueues the self-rescheduling event at
`next_base = base_beat + sequence_length` through plain
`schedule_event`, i.e. with `concurrent = true` (executed via the worker
pool), not through `schedule_critical_event`. -/
theorem C5_loop_event_is_concurrent (seq : MIDISequencer) (tr : PreciseTransport MidiAction)
    (now : ℤ) (sid : ℤ) (base : ℚ) (st : SequenceState)
    (hlk : MIDISequencer.lookup seq.active_sequences sid = some st)
    (hloop : st.sequence.loop = true) (hplay : tr.is_playing = true)
    (hfut : now < tr.event_timestamp (base + st.sequence_length)) :
    ∃ e ∈ (MIDISequencer.schedule_iteration seq tr now sid base).2.events,
      e.callback = MidiAction.scheduleNext sid (base + st.sequence_length) ∧
      e.timestamp_ns = tr.event_timestamp (base + st.sequence_length) ∧
      e.concurrent = true := by
  unfold MIDISequencer.schedule_iteration
  rw [hlk]
  simp only [hloop, if_pos]
  have h1p : (MIDISequencer.scheduleNotes now base tr st.sequence.notes).is_playing = true := by
    rw [MIDISequencer.scheduleNotes_is_playing]; exact hplay
  have hcon : (MIDISequencer.scheduleNotes now base tr st.sequence.notes).event_timestamp
      (base + st.sequence_length) = tr.event_timestamp (base + st.sequence_length) :=
    MIDISequencer.event_timestamp_congr (MIDISequencer.scheduleNotes_start_time_ns now base _ tr)
      (MIDISequencer.scheduleNotes_ns_per_beat now base _ tr) _
  refine ⟨⟨(MIDISequencer.scheduleNotes now base tr st.sequence.notes).event_timestamp
      (base + st.sequence_length),
    MidiAction.scheduleNext sid (base + st.sequence_length),
    some (MIDISequencer.scheduleNotes now base tr st.sequence.notes).next_event_id, true⟩,
    ?_, rfl, by rw [hcon], rfl⟩
  exact PreciseTransport.schedule_event_queues _ now _ _ true h1p (by rw [hcon]; exact hfut)

/-- Witness for C5: the amended statement applied to a concrete looping
one-note sequence. -/
theorem C5_witness :
    MIDISequencer.lookup seqr5.active_sequences 0 = some ⟨seqLoop, 1, 0, 1⟩ ∧
    seqLoop.loop = true ∧ trSeq.is_playing = true ∧
    (0 : ℤ) < trSeq.event_timestamp (1 + 1) ∧
    (∃ e ∈ (MIDISequencer.schedule_iteration seqr5 trSeq 0 0 1).2.events,
      e.callback = MidiAction.scheduleNext 0 (1 + 1) ∧
      e.timestamp_ns = trSeq.event_timestamp (1 + 1) ∧
      e.concurrent = true) := by
  have hfut : (0 : ℤ) < trSeq.event_timestamp (1 + 1) := by
    show (0 : ℤ) < 0 + pyInt ((1 + 1 : ℚ) * 1)
    rw [pyInt_eval ((1 + 1 : ℚ) * 1) 2 (by norm_num) (by norm_num) (by norm_num)]
    decide
  exact ⟨rfl, rfl, rfl, hfut,
    C5_loop_event_is_concurrent seqr5 trSeq 0 0 1 ⟨seqLoop, 1, 0, 1⟩ rfl rfl rfl hfut⟩

/-- Claim C6 (code bug): `start_loop` on a registered sequence whose
`loop` flag is `False` schedules one fresh iteration but never assigns
`loop = True` — after the call the flag is still `False`, so the
scheduled iteration will not self-reschedule.  This contradicts the
method's own docstring ("Enable looping for a sequence") and the
symmetric `stop_loop`, which does assign the flag. -/
theorem C6_start_loop_leaves_loop_flag_false :
    MIDISequencer.start_loop seqr6 trSeq 0 0 =
      Except.ok (seqr6,
        ⟨60000000000, 1, true, 0, 0, 2, [⟨1, MidiAction.noteOff 60 0, some 1, true⟩]⟩) ∧
    (MIDISequencer.lookup seqr6.active_sequences 0).map (fun st => st.sequence.loop) =
      some false := by
  constructor
  · norm_num [MIDISequencer.start_loop, MIDISequencer.schedule_iteration, MIDISequencer.lookup,
      MIDISequencer.scheduleNotes, MIDISequencer.scheduleOneNote, PreciseTransport.schedule_event,
      PreciseTransport.event_timestamp, PreciseTransport.current_beat, seqr6, seqNoLoop, trSeq,
      pyInt_one_eq, pyInt_zero_eq, heappush, siftdown, eventLT, List.find?]
  · rfl

/-- Counterexample to claim C7 as stated: `set_tempo` on a running
transport whose queue holds one event already past due (`timestamp 50 ≤
now = 100`) leaves the queue empty — the past-due event is removed
outright, not left for the dispatcher. -/
theorem C7_counterexample :
    (⟨50, (), some 0, false⟩ : TimedEvent Unit) ∈ tr120past.events ∧
    (PreciseTransport.set_tempo tr120past 100 90).events = [] := by
  constructor
  · simp [tr120past]
  · simp [PreciseTransport.set_tempo, tr120past]

/-- Claim C7 (amended): the queue produced by `set_tempo` on a running
transport consists exactly of the rescheduled copies of the events whose
timestamp was strictly in the future; events at or before `now` are
dropped from the queue entirely (their callbacks are never dispatched by
the transport), rather than remaining for the dispatcher's next
iteration. -/
theorem C7_past_due_events_dropped (tr : PreciseTransport α) (now : ℤ) (bpm : ℚ)
    (hplay : tr.is_playing = true) (y : TimedEvent α) :
    y ∈ (PreciseTransport.set_tempo tr now bpm).events ↔
      ∃ e ∈ tr.events, now < e.timestamp_ns ∧
        y = PreciseTransport.reschedule_for_tempo tr.start_time_ns tr.ns_per_beat
              (NANOSECONDS_PER_MINUTE / bpm) e :=
  PreciseTransport.set_tempo_mem tr now bpm hplay y

/-- Witness for C7: the past-due event of `tr120past` is gone from the
queue after `set_tempo`. -/
theorem C7_witness :
    tr120past.is_playing = true ∧
    (⟨50, (), some 0, false⟩ : TimedEvent Unit) ∉
      (PreciseTransport.set_tempo tr120past 100 90).events := by
  refine ⟨rfl, fun hmem => ?_⟩
  obtain ⟨e, he, hlt, _⟩ := (C7_past_due_events_dropped tr120past 100 90 rfl _).mp hmem
  simp [tr120past] at he
  subst he
  exact absurd hlt (by decide)

/-- Claim C8: every event in the queue after `set_tempo` on a running
transport has `concurrent = true` — the rebuilt `TimedEvent` omits the
`concurrent` argument, so a pending critical event loses its critical
status when a tempo change occurs before it fires. -/
theorem C8_rescheduled_events_concurrent (tr : PreciseTransport α) (now : ℤ) (bpm : ℚ)
    (hplay : tr.is_playing = true) :
    ∀ e' ∈ (PreciseTransport.set_tempo tr now bpm).events, e'.concurrent = true := by
  intro e' he'
  obtain ⟨e, _, _, rfl⟩ := (PreciseTransport.set_tempo_mem tr now bpm hplay e').mp he'
  rfl

/-- Witness for C8: a transport holding a pending critical
(`concurrent = false`) event; after `set_tempo` every queued event is
concurrent. -/
theorem C8_witness :
    trCrit.is_playing = true ∧
    (⟨5, (), some 0, false⟩ : TimedEvent Unit) ∈ trCrit.events ∧
    (∀ e' ∈ (PreciseTransport.set_tempo trCrit 0 1).events, e'.concurrent = true) :=
  ⟨rfl, by simp [trCrit], C8_rescheduled_events_concurrent trCrit 0 1 rfl⟩

/-- Counterexample to claim C9 as stated: `Instrument.stop_sequence`
with an id that is not tracked returns successfully (no lookup failure
is surfaced to the caller); the sink is not invoked and the tracked set
is unchanged, but the call is a silent no-op rather than an observable
not-found error. -/
theorem C9_counterexample :
    Instrument.stop_sequence [] 7 = Except.ok ([], []) ∧
    Instrument.stop_sequence [] 7 ≠ Except.error () := by
  exact ⟨rfl, by simp [Instrument.stop_sequence]⟩

/-- Claim C9 (amended): `Instrument.stop_sequence` on an id outside
`active_sequence_ids` is a silent no-op: it raises nothing, does not
invoke the sequence sink, and leaves the tracked set unchanged. -/
theorem C9_unknown_id_silent_noop (active : List ℤ) (sid : ℤ) (h : sid ∉ active) :
    Instrument.stop_sequence active sid = Except.ok (active, []) := by
  simp [Instrument.stop_sequence, h]

/-- Witness for C9: the amended statement applied to an instrument
tracking no sequences. -/
theorem C9_witness :
    (7 : ℤ) ∉ ([] : List ℤ) ∧ Instrument.stop_sequence [] 7 = Except.ok ([], []) :=
  ⟨by decide, C9_unknown_id_silent_noop [] 7 (by decide)⟩

/-- Counterexample to claim C10 as stated: on the empty list (all of
whose tuples vacuously satisfy `Note` validation),
`Sequence.from_tuple_list` fails (`Sequence.__post_init__` rejects empty
`notes`), so `to_tuple_list(from_tuple_list([]))` is not `[]`. -/
theorem C10_counterexample :
    (Sequence.from_tuple_list [] false).map Sequence.to_tuple_list = none ∧
    (none : Option (List (ℤ × ℤ × ℤ × ℚ))) ≠ some [] := by
  constructor
  · rfl
  · simp

/-- Claim C10 (amended): for every NON-EMPTY list of 4-tuples whose
values satisfy `Note` validation, `from_tuple_list` succeeds and
`to_tuple_list` returns the original list. -/
theorem C10_roundtrip_nonempty_valid (x : List (ℤ × ℤ × ℤ × ℚ)) (hne : x ≠ [])
    (hval : ∀ t ∈ x, TupleValid t) :
    (Sequence.from_tuple_list x false).map Sequence.to_tuple_list = some x := by
  obtain ⟨notes, h1, h2, h3⟩ := fromTupleListAux_sound x 0 le_rfl hval
  have hnn : notes ≠ [] := by
    intro h
    apply hne
    rw [h] at h3
    exact List.length_eq_zero.mp h3.symm
  unfold Sequence.from_tuple_list
  rw [h1]
  show (mkSequence notes none false none).map Sequence.to_tuple_list = some x
  unfold mkSequence
  rw [if_pos]
  · show some (Sequence.to_tuple_list ⟨notes, none, false, none⟩) = some x
    unfold Sequence.to_tuple_list
    simpa using h2
  · exact ⟨hnn, by intro t ht; simp at ht⟩

/-- Witness for C10: the round-trip on a concrete one-tuple list. -/
theorem C10_witness :
    ([((60 : ℤ), (100 : ℤ), (0 : ℤ), (1 : ℚ))] ≠ []) ∧
    (∀ t ∈ [((60 : ℤ), (100 : ℤ), (0 : ℤ), (1 : ℚ))], TupleValid t) ∧
    (Sequence.from_tuple_list [((60 : ℤ), (100 : ℤ), (0 : ℤ), (1 : ℚ))] false).map
      Sequence.to_tuple_list = some [((60 : ℤ), (100 : ℤ), (0 : ℤ), (1 : ℚ))] := by
  have hval : ∀ t ∈ [((60 : ℤ), (100 : ℤ), (0 : ℤ), (1 : ℚ))], TupleValid t := by
    intro t ht
    rw [List.mem_singleton] at ht
    subst ht
    exact ⟨⟨by decide, by decide⟩, ⟨by decide, by decide⟩, ⟨by decide, by decide⟩, one_pos⟩
  exact ⟨by simp, hval, C10_roundtrip_nonempty_valid _ (by simp) hval⟩
